import Mathlib

/-!
Verification development for the external-dns core: a shallow embedding of
the endpoint data model, the registry ownership filter, the Noop registry,
the record-type defaulting helpers, the Infoblox zone matcher, the ingress
template source, the test utility `SameEndpoints`, and the plan calculator,
together with theorems settling the specification claims about them.
-/

/-! ## Record-type defaulting (provider/provider.go `suitableType`,
CoreDNS provider `guessRecordType`) and the model of `net.ParseIP`. -/

/-- Decimal-prefix parser mirroring the net package helper `dtoi`:
accumulates decimal digits, fails once the accumulator reaches the
`big` cutoff `0xFFFFFF`, and otherwise returns the value together with
the unconsumed characters (`none` when no digit was read). -/
def dtoi : List Char → Nat → Bool → Option (Nat × List Char)
  | [], n, seen => if seen then some (n, []) else none
  | c :: cs, n, seen =>
    if c.isDigit then
      let m := n * 10 + (c.toNat - '0'.toNat)
      if 0xFFFFFF ≤ m then none else dtoi cs m true
    else if seen then some (n, c :: cs) else none

/-- Reads one decimal octet of an IPv4 address; the octet must be at
most `0xFF`, as in the net package's `parseIPv4`. -/
def parseOctet (s : List Char) : Option (Nat × List Char) := do
  let (n, r) ← dtoi s 0 false
  if 255 < n then none else pure (n, r)

/-- Consumes a literal dot separator. -/
def expectDot : List Char → Option (List Char)
  | '.' :: r => some r
  | _ => none

/-- Mirrors the net package's `parseIPv4`: exactly four decimal octets
in the range 0..255 separated by dots, consuming the entire input. -/
def parseIPv4 (s : List Char) : Option (List Nat) := do
  let (a, r) ← parseOctet s
  let r ← expectDot r
  let (b, r) ← parseOctet r
  let r ← expectDot r
  let (c, r) ← parseOctet r
  let r ← expectDot r
  let (d, r) ← parseOctet r
  if r = [] then pure [a, b, c, d] else none

/-- Value of a hexadecimal digit character, if it is one. -/
def hexDigit? (c : Char) : Option Nat :=
  if '0' ≤ c ∧ c ≤ '9' then some (c.toNat - '0'.toNat)
  else if 'a' ≤ c ∧ c ≤ 'f' then some (c.toNat - 'a'.toNat + 10)
  else if 'A' ≤ c ∧ c ≤ 'F' then some (c.toNat - 'A'.toNat + 10)
  else none

/-- Hexadecimal-prefix parser mirroring the net package helper `xtoi`,
with the same `0xFFFFFF` cutoff as `dtoi`. -/
def xtoi : List Char → Nat → Bool → Option (Nat × List Char)
  | [], n, seen => if seen then some (n, []) else none
  | c :: cs, n, seen =>
    match hexDigit? c with
    | some d =>
      let m := n * 16 + d
      if 0xFFFFFF ≤ m then none else xtoi cs m true
    | none => if seen then some (n, c :: cs) else none

/-- Reads one 16-bit hexadecimal group of an IPv6 address. -/
def parseHexGroup (s : List Char) : Option (Nat × List Char) := do
  let (n, r) ← xtoi s 0 false
  if 0xFFFF < n then none else pure (n, r)

/-- Main loop of the net package's `parseIPv6`. The counter `g` is the
number of 16-bit groups still missing (the loop runs while fewer than 16
bytes are filled, and every iteration fills exactly two bytes, so eight
iterations suffice). Returns the accumulated bytes, the ellipsis
position, and the unconsumed input. -/
def v6loop : Nat → List Char → List Nat → Option Nat → Option (List Nat × Option Nat × List Char)
  | 0, s, bytes, ell => some (bytes, ell, s)
  | g + 1, s, bytes, ell =>
    match parseHexGroup s with
    | none => none
    | some (n, c) =>
      if c.head? = some '.' then
        if (ell = none ∧ bytes.length ≠ 12) ∨ 16 < bytes.length + 4 then none
        else
          match parseIPv4 s with
          | none => none
          | some q => some (bytes ++ q, ell, [])
      else
        let bytes' := bytes ++ [n / 256, n % 256]
        match c with
        | [] => some (bytes', ell, [])
        | [':'] => none
        | ':' :: ':' :: rest =>
          if ell.isSome then none
          else if rest = [] then some (bytes', some bytes'.length, [])
          else v6loop g rest bytes' (some bytes'.length)
        | ':' :: rest => v6loop g rest bytes' ell
        | _ => none

/-- Inserts the zero bytes elided by a `::` ellipsis at its recorded
position, filling the address up to 16 bytes. -/
def expandEllipsis (bytes : List Nat) (e : Nat) : List Nat :=
  bytes.take e ++ List.replicate (16 - bytes.length) 0 ++ bytes.drop e

/-- Post-loop part of the net package's `parseIPv6`: the whole input
must be consumed; a short address requires an ellipsis, which is
expanded; a full address must not also carry an ellipsis. -/
def parseIPv6Main (s : List Char) (ell0 : Option Nat) : Option (List Nat) :=
  match v6loop 8 s [] ell0 with
  | none => none
  | some (bytes, ell, rem) =>
    if rem ≠ [] then none
    else if bytes.length < 16 then
      match ell with
      | none => none
      | some e => some (expandEllipsis bytes e)
    else if ell.isSome then none
    else some bytes

/-- Mirrors the net package's `parseIPv6` (zones disallowed): a leading
`::` records an ellipsis at position zero, and a bare `::` is the zero
address. -/
def parseIPv6 : List Char → Option (List Nat)
  | ':' :: ':' :: rest =>
    if rest = [] then some (List.replicate 16 0)
    else parseIPv6Main rest (some 0)
  | s => parseIPv6Main s none

/-- Mirrors `net.ParseIP`: scan for the first dot or colon; a dot means
dotted-decimal IPv4 (returned in 4-in-6 form as the net package does),
a colon means IPv6, anything else is not an IP literal. -/
def parseIP (s : String) : Option (List Nat) :=
  match s.data.find? (fun c => c == '.' || c == ':') with
  | some '.' => (parseIPv4 s.data).map
      (fun q => [0, 0, 0, 0, 0, 0, 0, 0, 0, 0, 0xff, 0xff] ++ q)
  | some ':' => parseIPv6 s.data
  | _ => none

/-- Constant `endpoint.RecordTypeA`. -/
def RecordTypeA : String := "A"

/-- Constant `endpoint.RecordTypeCNAME`. -/
def RecordTypeCNAME : String := "CNAME"

/-- Constant `endpoint.RecordTypeTXT`. -/
def RecordTypeTXT : String := "TXT"

/-- Mirrors `suitableType` of provider/provider.go: "CNAME" when the
target does not parse as an IP, "A" otherwise. -/
def suitableType (target : String) : String :=
  if parseIP target = none then "CNAME" else "A"

/-- Mirrors `guessRecordType` of the CoreDNS provider: record type A for
an IP literal target, CNAME for everything else. -/
def guessRecordType (target : String) : String :=
  if (parseIP target).isSome then RecordTypeA else RecordTypeCNAME

/-- Sanity check: a dotted-decimal literal is typed A. -/
theorem suitableType_ipv4_example : suitableType "8.8.8.8" = "A" := by decide

/-- Sanity check: a hostname is typed CNAME. -/
theorem suitableType_hostname_example : suitableType "example.org" = "CNAME" := by decide

/-- Sanity check: an IPv6 literal is typed A. -/
theorem suitableType_ipv6_example : suitableType "2001:db8::1" = "A" := by decide

/-- Sanity check: an out-of-range octet is not an IP literal. -/
theorem suitableType_octet_range_example : suitableType "1.2.3.256" = "CNAME" := by decide

/-- C6: for every target string `t`, the record-type default functions
`suitableType` and `guessRecordType` return "A" exactly when `t` parses
as an IP literal and "CNAME" otherwise; they never return any other
value, and the two functions agree. -/
theorem claim_C6 (t : String) :
    (suitableType t = "A" ∨ suitableType t = "CNAME")
    ∧ (suitableType t = "A" ↔ (parseIP t).isSome)
    ∧ guessRecordType t = suitableType t := by
  unfold suitableType guessRecordType RecordTypeA RecordTypeCNAME
  cases h : parseIP t <;> simp [h]

/-! ## testutils endpoint comparison (internal/testutils/endpoint.go) over
the endpoint model of endpoint/endpoint.go. -/

/-- Endpoint as defined in endpoint/endpoint.go: the hostname of the DNS
record and the target it points to. -/
structure Endpoint where
  DNSName : String
  Target : String
deriving DecidableEq

/-- Mirrors `SameEndpoint`: two endpoints are the same when both the DNS
name and the target agree exactly (trailing dots are significant). -/
def SameEndpoint (a b : Endpoint) : Bool :=
  a.DNSName == b.DNSName && a.Target == b.Target

/-- Inner level of the `SameEndpoints` calculator: a `uint8` counter per
target string, kept as a natural number that is always below 256. -/
abbrev TargetCounter := List (String × Nat)

/-- Outer level of the `SameEndpoints` calculator, mirroring the Go map
`map[string]map[string]uint8`: per DNS name, a counter per target. -/
abbrev Calculator := List (String × TargetCounter)

/-- Increments the `uint8` counter of a target, inserting it at one when
absent, with the wraparound of `uint8` addition. -/
def incTarget : TargetCounter → String → TargetCounter
  | [], t => [(t, 1)]
  | (t', v) :: rest, t =>
    if t' = t then (t', (v + 1) % 256) :: rest else (t', v) :: incTarget rest t

/-- Decrements the `uint8` counter of a target with wraparound; the
caller has already checked that the target is present. -/
def decTarget : TargetCounter → String → TargetCounter
  | [], _ => []
  | (t', v) :: rest, t =>
    if t' = t then (t', (v + 255) % 256) :: rest else (t', v) :: decTarget rest t

/-- Counts one endpoint of the first list into the calculator. -/
def incEp : Calculator → Endpoint → Calculator
  | [], e => [(e.DNSName, incTarget [] e.Target)]
  | (n, tc) :: rest, e =>
    if n = e.DNSName then (n, incTarget tc e.Target) :: rest
    else (n, tc) :: incEp rest e

/-- Discounts one endpoint of the second list from the calculator. -/
def decEp : Calculator → Endpoint → Calculator
  | [], _ => []
  | (n, tc) :: rest, e =>
    if n = e.DNSName then (n, decTarget tc e.Target) :: rest
    else (n, tc) :: decEp rest e

/-- Two-level lookup into the calculator. -/
def lookup2 (cal : Calculator) (n t : String) : Option Nat :=
  match cal.lookup n with
  | none => none
  | some tc => tc.lookup t

/-- Existence check performed by the second loop of `SameEndpoints`:
first the DNS name key, then the target key. -/
def hasEp (cal : Calculator) (e : Endpoint) : Bool :=
  match cal.lookup e.DNSName with
  | none => false
  | some tc => (tc.lookup e.Target).isSome

/-- Second loop of `SameEndpoints`: for each endpoint of `b`, fail when
its name or target is absent from the calculator, otherwise decrement
its `uint8` counter. -/
def consume (cal : Calculator) : List Endpoint → Option Calculator
  | [] => some cal
  | e :: rest => if hasEp cal e then consume (decEp cal e) rest else none

/-- Final loop of `SameEndpoints`: every counter must be back at zero. -/
def allZero (cal : Calculator) : Bool :=
  cal.all (fun p => p.2.all (fun q => q.2 == 0))

/-- Mirrors `SameEndpoints` of internal/testutils/endpoint.go: equal
lengths, count the pairs of `a` into a nested map of `uint8` counters,
decrement for each pair of `b` (failing on unknown names or targets),
then check that every counter is zero. -/
def SameEndpoints (a b : List Endpoint) : Bool :=
  if a.length ≠ b.length then false
  else
    match consume (a.foldl incEp []) b with
    | none => false
    | some cal => allZero cal

/-- Unfolding lemma for `List.lookup` on a cons cell with plain
propositional equality of keys. -/
theorem lookup_pair_cons {β : Type} (k k' : String) (v : β) (l : List (String × β)) :
    List.lookup k ((k', v) :: l) = if k = k' then some v else List.lookup k l := by
  by_cases h : k = k'
  · simp [List.lookup, h]
  · simp [List.lookup, h, beq_eq_false_iff_ne.mpr h]

/-- Lookup after incrementing a target counter. -/
theorem lookup_incTarget (tc : TargetCounter) (t0 t : String) :
    (incTarget tc t0).lookup t =
      if t0 = t then some (((tc.lookup t).getD 0 + 1) % 256) else tc.lookup t := by
  induction tc with
  | nil =>
    by_cases h : t0 = t
    · subst h; simp [incTarget, lookup_pair_cons]
    · simp [incTarget, lookup_pair_cons, h, Ne.symm h]
  | cons hd tl ih =>
    obtain ⟨t', v⟩ := hd
    by_cases h1 : t' = t0
    · subst h1
      by_cases h2 : t' = t
      · subst h2; simp [incTarget, lookup_pair_cons]
      · simp [incTarget, lookup_pair_cons, h2, Ne.symm h2]
    · by_cases h3 : t = t'
      · subst h3
        simp [incTarget, h1, lookup_pair_cons, Ne.symm h1]
      · simp [incTarget, h1, lookup_pair_cons, h3, ih]

/-- Lookup after decrementing a target counter. -/
theorem lookup_decTarget (tc : TargetCounter) (t0 t : String) :
    (decTarget tc t0).lookup t =
      if t0 = t then (tc.lookup t).map (fun v => (v + 255) % 256)
      else tc.lookup t := by
  induction tc with
  | nil => by_cases h : t0 = t <;> simp [decTarget, h, List.lookup]
  | cons hd tl ih =>
    obtain ⟨t', v⟩ := hd
    by_cases h1 : t' = t0
    · subst h1
      by_cases h2 : t' = t
      · subst h2; simp [decTarget, lookup_pair_cons]
      · simp [decTarget, lookup_pair_cons, h2, Ne.symm h2]
    · by_cases h3 : t = t'
      · subst h3
        simp [decTarget, h1, lookup_pair_cons, Ne.symm h1]
      · simp [decTarget, h1, lookup_pair_cons, h3, ih]

/-- Unfolding lemma for the two-level lookup on a cons cell. -/
theorem lookup2_cons (m : String) (tc : TargetCounter) (tl : Calculator) (n t : String) :
    lookup2 ((m, tc) :: tl) n t = if m = n then tc.lookup t else lookup2 tl n t := by
  by_cases h : n = m
  · subst h; simp [lookup2, lookup_pair_cons]
  · simp [lookup2, lookup_pair_cons, h, Ne.symm h]

/-- The two-level lookup on the empty calculator. -/
theorem lookup2_nil (n t : String) : lookup2 [] n t = none := rfl

/-- Lookup into the empty association list. -/
theorem lookup_pair_nil {β : Type} (k : String) :
    List.lookup k ([] : List (String × β)) = none := rfl

/-- Lookup after counting one endpoint into the calculator. -/
theorem lookup2_incEp (cal : Calculator) (e : Endpoint) (n t : String) :
    lookup2 (incEp cal e) n t =
      if e.DNSName = n ∧ e.Target = t then
        some (((lookup2 cal n t).getD 0 + 1) % 256)
      else lookup2 cal n t := by
  induction cal with
  | nil =>
    by_cases h1 : e.DNSName = n
    · subst h1
      by_cases h2 : e.Target = t
      · subst h2
        simp [incEp, incTarget, lookup2_cons, lookup2_nil, lookup_pair_cons]
      · simp [incEp, incTarget, lookup2_cons, lookup2_nil, lookup_pair_cons,
          lookup_pair_nil, h2, Ne.symm h2]
    · simp [incEp, lookup2_cons, lookup2_nil, h1]
  | cons hd tl ih =>
    obtain ⟨m, tc⟩ := hd
    by_cases h1 : m = e.DNSName
    · subst h1
      by_cases h2 : e.DNSName = n
      · subst h2
        by_cases h3 : e.Target = t <;>
          simp [incEp, lookup2_cons, lookup_incTarget, h3]
      · simp [incEp, lookup2_cons, h2]
    · by_cases h2 : m = n
      · subst h2
        simp [incEp, lookup2_cons, h1, Ne.symm h1]
      · simp [incEp, lookup2_cons, h1, h2, ih]

/-- Lookup after discounting one endpoint from the calculator. -/
theorem lookup2_decEp (cal : Calculator) (e : Endpoint) (n t : String) :
    lookup2 (decEp cal e) n t =
      if e.DNSName = n ∧ e.Target = t then
        (lookup2 cal n t).map (fun v => (v + 255) % 256)
      else lookup2 cal n t := by
  induction cal with
  | nil =>
    by_cases h1 : e.DNSName = n ∧ e.Target = t <;> simp [decEp, lookup2_nil, h1]
  | cons hd tl ih =>
    obtain ⟨m, tc⟩ := hd
    by_cases h1 : m = e.DNSName
    · subst h1
      by_cases h2 : e.DNSName = n
      · subst h2
        by_cases h3 : e.Target = t <;>
          simp [decEp, lookup2_cons, lookup_decTarget, h3]
      · simp [decEp, lookup2_cons, h2]
    · by_cases h2 : m = n
      · subst h2
        simp [decEp, lookup2_cons, h1, Ne.symm h1]
      · simp [decEp, lookup2_cons, h1, h2, ih]

/-- The nested existence check is exactly definedness of the two-level
lookup. -/
theorem hasEp_eq_isSome (cal : Calculator) (e : Endpoint) :
    hasEp cal e = (lookup2 cal e.DNSName e.Target).isSome := by
  unfold hasEp lookup2
  cases cal.lookup e.DNSName <;> simp

/-- Number of endpoints of a list with the given DNS name and target. -/
def cntEp : List Endpoint → String → String → Nat
  | [], _, _ => 0
  | e :: rest, n, t =>
    (if e.DNSName = n ∧ e.Target = t then 1 else 0) + cntEp rest n t

/-- The pair count agrees with `List.count` of the corresponding endpoint. -/
theorem cntEp_eq_count (l : List Endpoint) (n t : String) :
    cntEp l n t = l.count ⟨n, t⟩ := by
  induction l with
  | nil => simp [cntEp]
  | cons e rest ih =>
    rw [cntEp, ih, List.count_cons]
    by_cases h : e.DNSName = n ∧ e.Target = t
    · have he : e = ⟨n, t⟩ := by cases e; simp_all
      simp [he, Nat.add_comm]
    · have he : ¬ e = ⟨n, t⟩ := by cases e; simp_all
      simp [h, he]

/-- Every counter value stored in the calculator is below 256. -/
def BoundedCal (cal : Calculator) : Prop :=
  ∀ n t v, lookup2 cal n t = some v → v < 256

/-- The empty calculator is bounded. -/
theorem boundedCal_nil : BoundedCal [] := by
  intro n t v h
  simp [lookup2_nil] at h

/-- Counting an endpoint preserves boundedness. -/
theorem boundedCal_incEp (cal : Calculator) (e : Endpoint) (h : BoundedCal cal) :
    BoundedCal (incEp cal e) := by
  intro n t v hv
  rw [lookup2_incEp] at hv
  split at hv
  · cases hv
    exact Nat.mod_lt _ (by norm_num)
  · exact h n t v hv

/-- Discounting an endpoint preserves boundedness. -/
theorem boundedCal_decEp (cal : Calculator) (e : Endpoint) (h : BoundedCal cal) :
    BoundedCal (decEp cal e) := by
  intro n t v hv
  rw [lookup2_decEp] at hv
  split at hv
  · cases hcal : lookup2 cal n t with
    | none => rw [hcal] at hv; simp at hv
    | some w =>
      rw [hcal] at hv
      simp only [Option.map_some'] at hv
      cases hv
      exact Nat.mod_lt _ (by norm_num)
  · exact h n t v hv

/-- Folding the first list into the calculator preserves boundedness. -/
theorem boundedCal_foldl (a : List Endpoint) (cal : Calculator) (h : BoundedCal cal) :
    BoundedCal (a.foldl incEp cal) := by
  induction a generalizing cal with
  | nil => exact h
  | cons e rest ih => exact ih (incEp cal e) (boundedCal_incEp cal e h)

/-- Characterization of the first loop of `SameEndpoints`: after folding
the list `a` into a bounded calculator, a lookup returns the previous
value plus the pair count of `a`, with `uint8` wraparound. -/
theorem lookup2_foldl_incEp (a : List Endpoint) (cal : Calculator) (n t : String)
    (hb : BoundedCal cal) :
    lookup2 (a.foldl incEp cal) n t =
      if cntEp a n t = 0 ∧ lookup2 cal n t = none then none
      else some (((lookup2 cal n t).getD 0 + cntEp a n t) % 256) := by
  induction a generalizing cal with
  | nil =>
    cases hcal : lookup2 cal n t with
    | none => simp [cntEp, hcal]
    | some v => simp [cntEp, hcal, Nat.mod_eq_of_lt (hb n t v hcal)]
  | cons e rest ih =>
    rw [List.foldl_cons, ih (incEp cal e) (boundedCal_incEp cal e hb), lookup2_incEp]
    by_cases hm : e.DNSName = n ∧ e.Target = t
    · cases hcal : lookup2 cal n t with
      | none =>
        simp [cntEp, hm, hcal, Nat.mod_add_mod, Nat.add_comm]
      | some v =>
        simp [cntEp, hm, hcal, Nat.mod_add_mod, Nat.add_assoc]
    · simp [cntEp, hm]

/-- Characterization of the first loop starting from the empty
calculator: a lookup returns the pair count of `a` modulo 256, or
nothing when the pair does not occur in `a`. -/
theorem lookup2_phase1 (a : List Endpoint) (n t : String) :
    lookup2 (a.foldl incEp []) n t =
      if cntEp a n t = 0 then none else some (cntEp a n t % 256) := by
  rw [lookup2_foldl_incEp a [] n t boundedCal_nil]
  simp [lookup2_nil]

/-- Discounting preserves which pairs are present in the calculator. -/
theorem isSome_lookup2_decEp (cal : Calculator) (e : Endpoint) (n t : String) :
    (lookup2 (decEp cal e) n t).isSome = (lookup2 cal n t).isSome := by
  rw [lookup2_decEp]
  split
  · cases lookup2 cal n t <;> simp
  · rfl

/-- The second loop of `SameEndpoints` succeeds exactly when every pair
of `b` is present in the calculator. -/
theorem consume_isSome_iff (b : List Endpoint) (cal : Calculator) :
    (consume cal b).isSome ↔ ∀ e ∈ b, (lookup2 cal e.DNSName e.Target).isSome := by
  induction b generalizing cal with
  | nil => simp [consume]
  | cons e rest ih =>
    by_cases h : hasEp cal e = true
    · have hsome : (lookup2 cal e.DNSName e.Target).isSome := by
        rw [← hasEp_eq_isSome]; exact h
      rw [consume, if_pos h]
      rw [ih (decEp cal e)]
      constructor
      · intro hall e' he'
        rcases List.mem_cons.mp he' with rfl | he'
        · exact hsome
        · have := hall e' he'
          rwa [isSome_lookup2_decEp] at this
      · intro hall e' he'
        rw [isSome_lookup2_decEp]
        exact hall e' (List.mem_cons_of_mem _ he')
    · rw [consume, if_neg h]
      simp only [Option.isSome_none, Bool.false_eq_true, false_iff]
      intro hall
      apply h
      rw [hasEp_eq_isSome]
      exact hall e (List.mem_cons_self e rest)

/-- Characterization of the second loop of `SameEndpoints`: on success,
every counter has been decremented by the pair count of `b`, with
`uint8` wraparound. -/
theorem lookup2_consume (b : List Endpoint) (cal cal' : Calculator)
    (hb : BoundedCal cal) (h : consume cal b = some cal') (n t : String) :
    lookup2 cal' n t =
      (lookup2 cal n t).map (fun v => (v + 255 * cntEp b n t) % 256) := by
  induction b generalizing cal with
  | nil =>
    simp only [consume, Option.some.injEq] at h
    subst h
    cases hcal : lookup2 cal n t with
    | none => simp
    | some v => simp [cntEp, Nat.mod_eq_of_lt (hb n t v hcal)]
  | cons e rest ih =>
    rw [consume] at h
    split at h
    · rw [ih (decEp cal e) (boundedCal_decEp cal e hb) h, lookup2_decEp]
      by_cases hm : e.DNSName = n ∧ e.Target = t
      · cases hcal : lookup2 cal n t with
        | none => simp [hm, hcal]
        | some v =>
          simp only [hm, and_self, if_true, hcal, Option.map_some', cntEp,
            Option.some.injEq]
          rw [Nat.mod_add_mod]
          congr 1
          ring
      · simp [cntEp, hm]
    · cases h

/-- The calculator never holds a duplicate key on either level, since
both levels are built by in-place update with insertion at the end. -/
def NodupCal (cal : Calculator) : Prop :=
  (cal.map Prod.fst).Nodup ∧ ∀ p ∈ cal, (p.2.map Prod.fst).Nodup

/-- The empty calculator has no duplicate keys. -/
theorem nodupCal_nil : NodupCal [] := by
  constructor
  · simp
  · intro p hp
    simp at hp

/-- Key membership after incrementing a target counter. -/
theorem mem_keys_incTarget (tc : TargetCounter) (t x : String) :
    x ∈ (incTarget tc t).map Prod.fst ↔ x ∈ tc.map Prod.fst ∨ x = t := by
  induction tc with
  | nil => simp [incTarget]
  | cons hd tl ih =>
    obtain ⟨t', v⟩ := hd
    by_cases h : t' = t
    · subst h
      simp [incTarget]
      tauto
    · simp [incTarget, h, ih]
      tauto

/-- Incrementing preserves distinctness of target keys. -/
theorem nodup_keys_incTarget (tc : TargetCounter) (t : String)
    (h : (tc.map Prod.fst).Nodup) : ((incTarget tc t).map Prod.fst).Nodup := by
  induction tc with
  | nil => simp [incTarget]
  | cons hd tl ih =>
    obtain ⟨t', v⟩ := hd
    simp only [List.map_cons, List.nodup_cons] at h
    by_cases h1 : t' = t
    · subst h1
      simpa [incTarget] using h
    · simp only [incTarget, h1, if_false, List.map_cons, List.nodup_cons]
      refine ⟨?_, ih h.2⟩
      rw [mem_keys_incTarget]
      rintro (hc | hc)
      · exact h.1 hc
      · exact h1 hc

/-- Decrementing does not change the target keys. -/
theorem keys_decTarget (tc : TargetCounter) (t : String) :
    (decTarget tc t).map Prod.fst = tc.map Prod.fst := by
  induction tc with
  | nil => rfl
  | cons hd tl ih =>
    obtain ⟨t', v⟩ := hd
    by_cases h : t' = t <;> simp [decTarget, h, ih]

/-- Key membership after counting an endpoint into the calculator. -/
theorem mem_keys_incEp (cal : Calculator) (e : Endpoint) (x : String) :
    x ∈ (incEp cal e).map Prod.fst ↔ x ∈ cal.map Prod.fst ∨ x = e.DNSName := by
  induction cal with
  | nil => simp [incEp]
  | cons hd tl ih =>
    obtain ⟨m, tc⟩ := hd
    by_cases h : m = e.DNSName
    · subst h
      simp [incEp]
      tauto
    · simp [incEp, h, ih]
      tauto

/-- Counting an endpoint preserves distinctness of keys on both levels. -/
theorem nodupCal_incEp (cal : Calculator) (e : Endpoint) (h : NodupCal cal) :
    NodupCal (incEp cal e) := by
  induction cal with
  | nil =>
    constructor
    · simp [incEp]
    · intro p hp
      simp only [incEp, List.mem_singleton] at hp
      rw [hp]
      simp [incTarget]
  | cons hd tl ih =>
    obtain ⟨m, tc⟩ := hd
    obtain ⟨hk, hin⟩ := h
    simp only [List.map_cons, List.nodup_cons] at hk
    by_cases h1 : m = e.DNSName
    · subst h1
      constructor
      · simpa [incEp] using hk
      · intro p hp
        simp only [incEp, if_pos rfl] at hp
        rcases List.mem_cons.mp hp with hp | hp
        · rw [hp]
          exact nodup_keys_incTarget tc e.Target
            (hin (e.DNSName, tc) (List.mem_cons_self _ _))
        · exact hin p (List.mem_cons_of_mem _ hp)
    · have htl : NodupCal tl := ⟨hk.2, fun p hp => hin p (List.mem_cons_of_mem _ hp)⟩
      obtain ⟨hk', hin'⟩ := ih htl
      constructor
      · simp only [incEp, h1, if_false, List.map_cons, List.nodup_cons]
        refine ⟨?_, hk'⟩
        rw [mem_keys_incEp]
        rintro (hc | hc)
        · exact hk.1 hc
        · exact h1 hc
      · intro p hp
        simp only [incEp, h1, if_false, List.mem_cons] at hp
        rcases hp with hp | hp
        · rw [hp]
          exact hin (m, tc) (List.mem_cons_self _ _)
        · exact hin' p hp

/-- Discounting an endpoint preserves distinctness of keys on both
levels (the outer keys are even unchanged). -/
theorem nodupCal_decEp (cal : Calculator) (e : Endpoint) (h : NodupCal cal) :
    NodupCal (decEp cal e) := by
  induction cal with
  | nil => exact h
  | cons hd tl ih =>
    obtain ⟨m, tc⟩ := hd
    obtain ⟨hk, hin⟩ := h
    simp only [List.map_cons, List.nodup_cons] at hk
    have hkeys : ∀ (l : Calculator), (decEp l e).map Prod.fst = l.map Prod.fst := by
      intro l
      induction l with
      | nil => rfl
      | cons hd' tl' ih' =>
        obtain ⟨m', tc'⟩ := hd'
        by_cases h' : m' = e.DNSName <;> simp [decEp, h', ih']
    by_cases h1 : m = e.DNSName
    · subst h1
      constructor
      · simpa [decEp] using hk
      · intro p hp
        simp only [decEp, if_pos rfl] at hp
        rcases List.mem_cons.mp hp with hp | hp
        · rw [hp]
          simpa [keys_decTarget] using hin (e.DNSName, tc) (List.mem_cons_self _ _)
        · exact hin p (List.mem_cons_of_mem _ hp)
    · have htl : NodupCal tl := ⟨hk.2, fun p hp => hin p (List.mem_cons_of_mem _ hp)⟩
      obtain ⟨hk', hin'⟩ := ih htl
      constructor
      · simp only [decEp, h1, if_false, List.map_cons, List.nodup_cons, hkeys tl]
        exact hk
      · intro p hp
        simp only [decEp, h1, if_false, List.mem_cons] at hp
        rcases hp with hp | hp
        · rw [hp]
          exact hin (m, tc) (List.mem_cons_self _ _)
        · exact hin' p hp

/-- Folding the first list into the calculator preserves key
distinctness. -/
theorem nodupCal_foldl (a : List Endpoint) (cal : Calculator) (h : NodupCal cal) :
    NodupCal (a.foldl incEp cal) := by
  induction a generalizing cal with
  | nil => exact h
  | cons e rest ih => exact ih (incEp cal e) (nodupCal_incEp cal e h)

/-- The second loop preserves key distinctness. -/
theorem nodupCal_consume (b : List Endpoint) (cal cal' : Calculator)
    (h : consume cal b = some cal') (hnd : NodupCal cal) : NodupCal cal' := by
  induction b generalizing cal with
  | nil =>
    simp only [consume, Option.some.injEq] at h
    subst h
    exact hnd
  | cons e rest ih =>
    rw [consume] at h
    split at h
    · exact ih (decEp cal e) h (nodupCal_decEp cal e hnd)
    · cases h

/-- A successful association-list lookup exhibits a member. -/
theorem lookup_eq_some_mem {β : Type} (k : String) (l : List (String × β)) (x : β)
    (h : List.lookup k l = some x) : (k, x) ∈ l := by
  induction l with
  | nil => simp [List.lookup] at h
  | cons hd tl ih =>
    obtain ⟨k', v⟩ := hd
    rw [lookup_pair_cons] at h
    split at h
    · cases h
      subst_vars
      exact List.mem_cons_self _ _
    · exact List.mem_cons_of_mem _ (ih h)

/-- With distinct keys, every member is found by lookup. -/
theorem mem_lookup_of_nodup {β : Type} (k : String) (l : List (String × β)) (x : β)
    (hnd : (l.map Prod.fst).Nodup) (h : (k, x) ∈ l) : List.lookup k l = some x := by
  induction l with
  | nil => simp at h
  | cons hd tl ih =>
    obtain ⟨k', v⟩ := hd
    simp only [List.map_cons, List.nodup_cons] at hnd
    rcases List.mem_cons.mp h with heq | hmem
    · cases heq
      rw [lookup_pair_cons, if_pos rfl]
    · have hk : k ≠ k' := by
        intro hkk
        subst hkk
        exact hnd.1 (List.mem_map.mpr ⟨(k, x), hmem, rfl⟩)
      rw [lookup_pair_cons, if_neg hk]
      exact ih hnd.2 hmem

/-- The final loop of `SameEndpoints` accepts exactly the calculators
whose every reachable counter is zero; with distinct keys every stored
counter is reachable. -/
theorem allZero_iff (cal : Calculator) (h : NodupCal cal) :
    allZero cal = true ↔ ∀ n t v, lookup2 cal n t = some v → v = 0 := by
  constructor
  · intro hz n t v hl
    unfold lookup2 at hl
    cases hcal : cal.lookup n with
    | none => rw [hcal] at hl; cases hl
    | some tc =>
      rw [hcal] at hl
      have hmem := lookup_eq_some_mem n cal tc hcal
      have hmem2 := lookup_eq_some_mem t tc v hl
      have h1 := List.all_eq_true.mp hz _ hmem
      have h2 := List.all_eq_true.mp h1 _ hmem2
      simpa using h2
  · intro hz
    rw [allZero, List.all_eq_true]
    intro p hp
    rw [List.all_eq_true]
    intro q hq
    obtain ⟨n, tc⟩ := p
    obtain ⟨t, v⟩ := q
    have houter : cal.lookup n = some tc := mem_lookup_of_nodup n cal tc h.1 hp
    have hinner : tc.lookup t = some v :=
      mem_lookup_of_nodup t tc v (h.2 (n, tc) hp) hq
    have : lookup2 cal n t = some v := by
      simp [lookup2, houter, hinner]
    simpa using hz n t v this

/-- A pair occurs in a list exactly when its count is positive. -/
theorem cntEp_pos_iff_mem (l : List Endpoint) (n t : String) :
    0 < cntEp l n t ↔ (⟨n, t⟩ : Endpoint) ∈ l := by
  rw [cntEp_eq_count]
  exact List.count_pos_iff

/-- Full characterization of `SameEndpoints`: it accepts exactly when
the lengths agree, every pair of `b` occurs in `a`, and the pair counts
of `a` and `b` agree modulo 256 (the `uint8` counter wraps around). -/
theorem sameEndpoints_iff (a b : List Endpoint) :
    SameEndpoints a b = true ↔
      a.length = b.length
      ∧ (∀ e ∈ b, 0 < cntEp a e.DNSName e.Target)
      ∧ (∀ n t, cntEp a n t % 256 = cntEp b n t % 256) := by
  have hbound : BoundedCal (a.foldl incEp []) := boundedCal_foldl a [] boundedCal_nil
  have hnd : NodupCal (a.foldl incEp []) := nodupCal_foldl a [] nodupCal_nil
  have hmem_iff : (consume (a.foldl incEp []) b).isSome
      ↔ ∀ e ∈ b, 0 < cntEp a e.DNSName e.Target := by
    rw [consume_isSome_iff]
    constructor
    · intro hall e he
      have hthis := hall e he
      rw [lookup2_phase1] at hthis
      by_cases hz : cntEp a e.DNSName e.Target = 0
      · rw [if_pos hz] at hthis
        simp at hthis
      · omega
    · intro hall e he
      have hpos := hall e he
      rw [lookup2_phase1, if_neg (by omega)]
      simp
  by_cases hlen : a.length = b.length
  · simp only [SameEndpoints, if_neg (by simp [hlen] : ¬ a.length ≠ b.length)]
    cases hcons : consume (a.foldl incEp []) b with
    | none =>
      have hnomem : ¬ ∀ e ∈ b, 0 < cntEp a e.DNSName e.Target := by
        rw [← hmem_iff, hcons]
        simp
      simp [hlen, hnomem]
    | some cal2 =>
      have hnd2 : NodupCal cal2 := nodupCal_consume b _ cal2 hcons hnd
      have hval : ∀ n t, lookup2 cal2 n t =
          (if cntEp a n t = 0 then none
           else some (cntEp a n t % 256)).map
            (fun v => (v + 255 * cntEp b n t) % 256) := by
        intro n t
        rw [lookup2_consume b _ cal2 hbound hcons n t, lookup2_phase1]
      have hmemb_of : (consume (a.foldl incEp []) b).isSome := by
        rw [hcons]
        simp
      have hmemb : ∀ e ∈ b, 0 < cntEp a e.DNSName e.Target := hmem_iff.mp hmemb_of
      rw [allZero_iff cal2 hnd2]
      constructor
      · intro hz
        refine ⟨hlen, hmemb, ?_⟩
        intro n t
        by_cases hza : cntEp a n t = 0
        · have hzb : cntEp b n t = 0 := by
            by_contra hb
            have hmemB : (⟨n, t⟩ : Endpoint) ∈ b := by
              rw [← cntEp_pos_iff_mem]
              omega
            have hposa : 0 < cntEp a n t := hmemb ⟨n, t⟩ hmemB
            omega
          rw [hza, hzb]
        · have hv := hz n t ((cntEp a n t % 256 + 255 * cntEp b n t) % 256)
            (by rw [hval n t, if_neg hza]; rfl)
          omega
      · rintro ⟨-, -, hmods⟩
        intro n t v hvl
        rw [hval n t] at hvl
        by_cases hza : cntEp a n t = 0
        · rw [if_pos hza] at hvl
          cases hvl
        · rw [if_neg hza] at hvl
          simp only [Option.map_some'] at hvl
          have hv := Option.some.inj hvl
          have := hmods n t
          omega
  · simp only [SameEndpoints, if_pos (by exact hlen : a.length ≠ b.length)]
    simp [hlen]

/-- Below 256 elements the `uint8` counters cannot wrap, so
`SameEndpoints` decides exactly multiset equality. -/
theorem sameEndpoints_eq_perm (a b : List Endpoint)
    (ha : a.length < 256) (_hb : b.length < 256) :
    (SameEndpoints a b = true ↔ a.Perm b) := by
  rw [sameEndpoints_iff, List.perm_iff_count]
  constructor
  · rintro ⟨hlen, hmem, hmods⟩ x
    have h1 : cntEp a x.DNSName x.Target = a.count x :=
      cntEp_eq_count a x.DNSName x.Target
    have h2 : cntEp b x.DNSName x.Target = b.count x :=
      cntEp_eq_count b x.DNSName x.Target
    have hm := hmods x.DNSName x.Target
    have hca : a.count x ≤ a.length := List.count_le_length x a
    have hcb : b.count x ≤ b.length := List.count_le_length x b
    omega
  · intro hcount
    have hperm : a.Perm b := List.perm_iff_count.mpr hcount
    refine ⟨hperm.length_eq, ?_, ?_⟩
    · intro e he
      have h1 : cntEp a e.DNSName e.Target = a.count e :=
        cntEp_eq_count a e.DNSName e.Target
      have h2 : 0 < b.count e := List.count_pos_iff.mpr he
      have := hcount e
      omega
    · intro n t
      rw [cntEp_eq_count, cntEp_eq_count, hcount ⟨n, t⟩]

/-- C9 (amended): `SameEndpoints(a, b)` returns true exactly when the
lengths agree, every (DNSName, Target) pair of `b` occurs in `a`, and
every pair's multiplicities in `a` and `b` agree modulo 256 — the Go
counter is a `uint8` and wraps around. Whenever both lists are shorter
than 256 this coincides with multiset equality of the pairs, and on such
lists the function is order-insensitive and symmetric. -/
theorem claim_C9_amended (a b : List Endpoint) :
    (SameEndpoints a b = true ↔
      a.length = b.length
      ∧ (∀ e ∈ b, 0 < cntEp a e.DNSName e.Target)
      ∧ (∀ n t, cntEp a n t % 256 = cntEp b n t % 256))
    ∧ (a.length < 256 → b.length < 256 →
        ((SameEndpoints a b = true ↔ a.Perm b)
          ∧ SameEndpoints a b = SameEndpoints b a)) := by
  refine ⟨sameEndpoints_iff a b, fun ha hb => ⟨sameEndpoints_eq_perm a b ha hb, ?_⟩⟩
  by_cases hab : SameEndpoints a b = true
  · have hba := (sameEndpoints_eq_perm b a hb ha).mpr
      ((sameEndpoints_eq_perm a b ha hb).mp hab).symm
    rw [hab, hba]
  · have hba : ¬ SameEndpoints b a = true := fun hba =>
      hab ((sameEndpoints_eq_perm a b ha hb).mpr
        ((sameEndpoints_eq_perm b a hb ha).mp hba).symm)
    rw [Bool.not_eq_true] at hab hba
    rw [hab, hba]

/-- C9 witness: on concrete short lists that are permutations of each
other, `SameEndpoints` accepts. -/
theorem claim_C9_amended_witness :
    SameEndpoints [⟨"foo", "u"⟩, ⟨"foo", "v"⟩] [⟨"foo", "v"⟩, ⟨"foo", "u"⟩] = true :=
  ((claim_C9_amended _ _).2 (by decide) (by decide)).1.mpr
    (List.Perm.swap (⟨"foo", "v"⟩ : Endpoint) (⟨"foo", "u"⟩ : Endpoint) [])

/-- C9 counterexample: with 257 elements the `uint8` counter wraps: the
list of 256 copies of ("a","x") and one ("a","y") is accepted against
257 copies of ("a","y"), although the multiplicities differ, and the
comparison is not symmetric on this input. -/
theorem claim_C9_counterexample :
    SameEndpoints (List.replicate 256 ⟨"a", "x"⟩ ++ [⟨"a", "y"⟩])
        (List.replicate 257 ⟨"a", "y"⟩) = true
    ∧ cntEp (List.replicate 256 ⟨"a", "x"⟩ ++ [⟨"a", "y"⟩]) "a" "x"
        ≠ cntEp (List.replicate 257 ⟨"a", "y"⟩) "a" "x"
    ∧ SameEndpoints (List.replicate 257 ⟨"a", "y"⟩)
        (List.replicate 256 ⟨"a", "x"⟩ ++ [⟨"a", "y"⟩]) = false := by
  set_option maxRecDepth 100000 in decide

/-! ## Registry ownership filter (registry/registry.go) and the Noop
registry (registry/noop.go). -/

/-- Endpoint of the registry era: DNS name, target, record type, and
labels — the Go `map[string]string` modelled as an association list. -/
structure LabeledEndpoint where
  DNSName : String
  Target : String
  RecordType : String
  Labels : List (String × String)
deriving DecidableEq

/-- Constant `endpoint.OwnerLabelKey`. -/
def OwnerLabelKey : String := "owner"

/-- Mirrors that era's `endpoint.NewEndpoint`: fresh endpoint with an
empty label map. -/
def NewEndpoint (dnsName target recordType : String) : LabeledEndpoint :=
  ⟨dnsName, target, recordType, []⟩

/-- Go map access `ep.Labels[key]`: a missing key yields the zero value,
the empty string. -/
def getLabel (ep : LabeledEndpoint) (key : String) : String :=
  (ep.Labels.lookup key).getD ""

/-- Mirrors `filterOwnedRecords` of registry/registry.go: start from an
empty slice and append every endpoint whose owner label equals the
given owner id. -/
def filterOwnedRecords (ownerID : String) (eps : List LabeledEndpoint) :
    List LabeledEndpoint :=
  eps.foldl (fun filtered ep =>
    if getLabel ep OwnerLabelKey == ownerID then filtered ++ [ep] else filtered) []

/-- The append loop is a filter. -/
theorem foldl_append_filter (p : LabeledEndpoint → Bool) (l : List LabeledEndpoint)
    (acc : List LabeledEndpoint) :
    l.foldl (fun acc ep => if p ep then acc ++ [ep] else acc) acc
      = acc ++ l.filter p := by
  induction l generalizing acc with
  | nil => simp
  | cons e rest ih =>
    by_cases h : p e <;>
      simp [List.filter_cons, h, ih]

/-- `filterOwnedRecords` keeps exactly the endpoints accepted by the
owner-label test, in order. -/
theorem filterOwnedRecords_eq_filter (ownerID : String) (eps : List LabeledEndpoint) :
    filterOwnedRecords ownerID eps
      = eps.filter (fun ep => getLabel ep OwnerLabelKey == ownerID) := by
  rw [filterOwnedRecords, foldl_append_filter]
  rfl

/-- C1 (amended): for every owner id, `filterOwnedRecords` returns
exactly the endpoints whose owner label — read with Go map semantics,
where a missing key yields the empty string — equals the owner id, in
their original relative order; and for every non-empty owner id, every
returned endpoint carries an explicit owner label equal to the owner
id, so no endpoint with a different or absent owner label appears. -/
theorem claim_C1_amended (ownerID : String) (eps : List LabeledEndpoint) :
    filterOwnedRecords ownerID eps
        = eps.filter (fun ep => getLabel ep OwnerLabelKey == ownerID)
    ∧ (ownerID ≠ "" → ∀ ep ∈ filterOwnedRecords ownerID eps,
        ep.Labels.lookup OwnerLabelKey = some ownerID) := by
  refine ⟨filterOwnedRecords_eq_filter ownerID eps, ?_⟩
  intro h ep hep
  rw [filterOwnedRecords_eq_filter] at hep
  have hlab := (List.mem_filter.mp hep).2
  rw [beq_iff_eq] at hlab
  unfold getLabel at hlab
  cases hl : ep.Labels.lookup OwnerLabelKey with
  | none =>
    rw [hl] at hlab
    simp at hlab
    exact absurd hlab.symm h
  | some v =>
    rw [hl] at hlab
    simp at hlab
    rw [hlab]

/-- C1 witness: with a non-empty owner id, the filter keeps the owned
endpoint and drops the unlabeled one. -/
theorem claim_C1_amended_witness :
    filterOwnedRecords "me"
        [⟨"a", "t", "A", [("owner", "me")]⟩, ⟨"b", "t", "A", []⟩]
      = List.filter (fun ep => getLabel ep OwnerLabelKey == "me")
        [⟨"a", "t", "A", [("owner", "me")]⟩, ⟨"b", "t", "A", []⟩]
    ∧ ∀ ep ∈ filterOwnedRecords "me"
        [⟨"a", "t", "A", [("owner", "me")]⟩, ⟨"b", "t", "A", []⟩],
        ep.Labels.lookup OwnerLabelKey = some "me" :=
  ⟨(claim_C1_amended "me"
      [⟨"a", "t", "A", [("owner", "me")]⟩, ⟨"b", "t", "A", []⟩]).1,
    (claim_C1_amended "me"
      [⟨"a", "t", "A", [("owner", "me")]⟩, ⟨"b", "t", "A", []⟩]).2 (by decide)⟩

/-- C1 counterexample: with the empty owner id — the Go zero value —
an endpoint carrying no owner label at all is returned, because the map
access `Labels["owner"]` yields the empty string for it. -/
theorem claim_C1_counterexample :
    filterOwnedRecords "" [⟨"foo", "1.2.3.4", "A", []⟩]
        = [⟨"foo", "1.2.3.4", "A", []⟩]
    ∧ (⟨"foo", "1.2.3.4", "A", []⟩ : LabeledEndpoint).Labels.lookup OwnerLabelKey
        = none := by
  constructor
  · rfl
  · rfl

/-- Changes of the plan package as used by the registry: the four
sequences of endpoint operations. -/
structure Changes where
  Create : List LabeledEndpoint
  UpdateOld : List LabeledEndpoint
  UpdateNew : List LabeledEndpoint
  Delete : List LabeledEndpoint
deriving DecidableEq

/-- The provider interface of provider/provider.go: `Records` returns
the Go pair (endpoints, error) and `ApplyChanges` returns an error;
`none` stands for Go's nil. -/
structure Provider where
  Records : String → Option (List LabeledEndpoint) × Option String
  ApplyChanges : String → Changes → Option String

/-- Mirrors `NoopRegistry` of registry/noop.go. -/
structure NoopRegistry where
  provider : Provider

/-- Mirrors `NewNoopRegistry` (the returned error is always nil and is
omitted). -/
def NewNoopRegistry (provider : Provider) : NoopRegistry :=
  ⟨provider⟩

/-- Mirrors `NoopRegistry.Records`: call the provider, return nil
endpoints together with the error when it failed, and the provider's
endpoints and (nil) error otherwise. -/
def NoopRegistry.Records (im : NoopRegistry) (zone : String) :
    Option (List LabeledEndpoint) × Option String :=
  let (eps, err) := im.provider.Records zone
  if err.isSome then (none, err) else (eps, err)

/-- Mirrors `NoopRegistry.ApplyChanges`: pass the changes through to the
provider unmodified. -/
def NoopRegistry.ApplyChanges (im : NoopRegistry) (zone : String)
    (changes : Changes) : Option String :=
  im.provider.ApplyChanges zone changes

/-- C7: the Noop registry is a pass-through: `Records` returns exactly
the provider's endpoint list and error (nil endpoints when the provider
errors), and `ApplyChanges` returns exactly the provider's error for
the unmodified changes. -/
theorem claim_C7 (p : Provider) (zone : String) (changes : Changes) :
    ((p.Records zone).2 = none →
      NoopRegistry.Records (NewNoopRegistry p) zone = p.Records zone)
    ∧ (∀ err, (p.Records zone).2 = some err →
      NoopRegistry.Records (NewNoopRegistry p) zone = (none, some err))
    ∧ NoopRegistry.ApplyChanges (NewNoopRegistry p) zone changes
        = p.ApplyChanges zone changes := by
  refine ⟨?_, ?_, rfl⟩
  · intro h
    unfold NoopRegistry.Records NewNoopRegistry
    rcases hrec : p.Records zone with ⟨eps, err⟩
    rw [hrec] at h
    simp only at h
    subst h
    simp
  · intro err h
    unfold NoopRegistry.Records NewNoopRegistry
    rcases hrec : p.Records zone with ⟨eps, err'⟩
    rw [hrec] at h
    simp only at h
    subst h
    simp

/-- C7 witness: a concrete provider that succeeds with an empty record
set passes through both calls. -/
theorem claim_C7_witness :
    NoopRegistry.Records
        (NewNoopRegistry ⟨fun _ => (some [], none), fun _ _ => none⟩) "example.org"
      = (some [], none)
    ∧ NoopRegistry.ApplyChanges
        (NewNoopRegistry ⟨fun _ => (some [], none), fun _ _ => none⟩) "example.org"
        ⟨[], [], [], []⟩ = none := by
  have h := claim_C7 ⟨fun _ => (some [], none), fun _ _ => none⟩ "example.org"
    ⟨[], [], [], []⟩
  exact ⟨h.1 rfl, h.2.2⟩

/-! ## Infoblox zone matching (provider/infoblox/infoblox.go). -/

/-- Authoritative zone record; `findZone` only inspects the FQDN. -/
structure ZoneAuth where
  Fqdn : String
deriving DecidableEq

/-- Go `len` on a string: the number of UTF-8 bytes. -/
def goLen (s : String) : Nat :=
  s.data.foldl (fun n c => n + c.utf8Size) 0

/-- Model of `strings.HasSuffix`: the suffix's characters end the
string (over UTF-8 this matches Go's byte-level suffix test, since the
suffixes used here start with an ASCII dot). -/
def hasSuffix (s suffix : String) : Bool :=
  suffix.data.isSuffixOf s.data

/-- Model of `strings.EqualFold`: equality under case folding. -/
def equalFold (a b : String) : Bool :=
  a.data.map Char.toLower == b.data.map Char.toLower

/-- Loop body of `InfobloxProvider.findZone`: a zone whose FQDN is a
dot-separated suffix of the name, or equals it under case folding,
replaces the current result when it is strictly longer. -/
def findZoneStep (name : String) (result : Option ZoneAuth) (zone : ZoneAuth) :
    Option ZoneAuth :=
  if hasSuffix name ("." ++ zone.Fqdn) then
    match result with
    | none => some zone
    | some r => if goLen r.Fqdn < goLen zone.Fqdn then some zone else some r
  else if equalFold name zone.Fqdn then
    match result with
    | none => some zone
    | some r => if goLen r.Fqdn < goLen zone.Fqdn then some zone else some r
  else result

/-- Mirrors `InfobloxProvider.findZone`: go through every zone looking
for the longest FQDN matching the name as a suffix or case-folded
equal. -/
def findZone (zones : List ZoneAuth) (name : String) : Option ZoneAuth :=
  zones.foldl (findZoneStep name) none

/-- A zone matches a name when the name ends in a dot followed by the
zone FQDN, or equals the FQDN under case folding. -/
def zoneMatches (name : String) (zone : ZoneAuth) : Bool :=
  hasSuffix name ("." ++ zone.Fqdn) || equalFold name zone.Fqdn

/-- The loop body in terms of the match predicate. -/
theorem findZoneStep_eq (name : String) (result : Option ZoneAuth) (zone : ZoneAuth) :
    findZoneStep name result zone =
      if zoneMatches name zone then
        match result with
        | none => some zone
        | some r => if goLen r.Fqdn < goLen zone.Fqdn then some zone else some r
      else result := by
  unfold findZoneStep zoneMatches
  by_cases h1 : hasSuffix name ("." ++ zone.Fqdn) = true
  · simp [h1]
  · by_cases h2 : equalFold name zone.Fqdn = true <;>
      simp [Bool.not_eq_true] at h1 <;> simp [h1, h2]

/-- Invariant carried by the `findZone` fold over the zones already
seen. -/
def InvZ (name : String) (seen : List ZoneAuth) : Option ZoneAuth → Prop
  | none => ∀ z ∈ seen, zoneMatches name z = false
  | some z => z ∈ seen ∧ zoneMatches name z = true
      ∧ ∀ z' ∈ seen, zoneMatches name z' = true → goLen z'.Fqdn ≤ goLen z.Fqdn

/-- The `findZone` fold preserves the invariant. -/
theorem findZone_fold_inv (name : String) (zones : List ZoneAuth) :
    ∀ (acc : Option ZoneAuth) (seen : List ZoneAuth), InvZ name seen acc →
      InvZ name (seen ++ zones) (zones.foldl (findZoneStep name) acc) := by
  induction zones with
  | nil =>
    intro acc seen h
    simpa using h
  | cons zone rest ih =>
    intro acc seen h
    have hstep : InvZ name (seen ++ [zone]) (findZoneStep name acc zone) := by
      rw [findZoneStep_eq]
      by_cases hm : zoneMatches name zone = true
      · rw [if_pos hm]
        cases acc with
        | none =>
          refine ⟨by simp, hm, ?_⟩
          intro z' hz' hmz'
          rcases List.mem_append.mp hz' with hz' | hz'
          · exact absurd hmz' (by simp [h z' hz'])
          · simp only [List.mem_singleton] at hz'
            rw [hz']
        | some r =>
          obtain ⟨hrmem, hrm, hrmax⟩ := h
          show InvZ name (seen ++ [zone])
            (if goLen r.Fqdn < goLen zone.Fqdn then some zone else some r)
          by_cases hlt : goLen r.Fqdn < goLen zone.Fqdn
          · rw [if_pos hlt]
            refine ⟨by simp, hm, ?_⟩
            intro z' hz' hmz'
            rcases List.mem_append.mp hz' with hz' | hz'
            · exact Nat.le_of_lt (Nat.lt_of_le_of_lt (hrmax z' hz' hmz') hlt)
            · simp only [List.mem_singleton] at hz'
              rw [hz']
          · rw [if_neg hlt]
            refine ⟨List.mem_append_left _ hrmem, hrm, ?_⟩
            intro z' hz' hmz'
            rcases List.mem_append.mp hz' with hz' | hz'
            · exact hrmax z' hz' hmz'
            · simp only [List.mem_singleton] at hz'
              rw [hz']
              omega
      · rw [if_neg hm]
        cases acc with
        | none =>
          intro z' hz'
          rcases List.mem_append.mp hz' with hz' | hz'
          · exact h z' hz'
          · simp only [List.mem_singleton] at hz'
            rw [hz']
            simpa using hm
        | some r =>
          obtain ⟨hrmem, hrm, hrmax⟩ := h
          refine ⟨List.mem_append_left _ hrmem, hrm, ?_⟩
          intro z' hz' hmz'
          rcases List.mem_append.mp hz' with hz' | hz'
          · exact hrmax z' hz' hmz'
          · simp only [List.mem_singleton] at hz'
            rw [hz'] at hmz'
            exact absurd hmz' (by simpa using hm)
    have := ih (findZoneStep name acc zone) (seen ++ [zone]) hstep
    simpa [List.append_assoc] using this

/-- C10: `findZone` returns nil exactly when no zone FQDN matches the
name (as a `"." ++ fqdn` suffix or under case-folded equality), and
otherwise returns a matching zone from the list whose FQDN length is
maximal among all matching zones. -/
theorem claim_C10 (zones : List ZoneAuth) (name : String) :
    (findZone zones name = none ↔ ∀ z ∈ zones, zoneMatches name z = false)
    ∧ ∀ z, findZone zones name = some z →
        z ∈ zones ∧ zoneMatches name z = true
        ∧ ∀ z' ∈ zones, zoneMatches name z' = true →
            goLen z'.Fqdn ≤ goLen z.Fqdn := by
  have hinv : InvZ name ([] ++ zones) (zones.foldl (findZoneStep name) none) :=
    findZone_fold_inv name zones none [] (by intro z hz; simp at hz)
  rw [List.nil_append] at hinv
  constructor
  · constructor
    · intro hnone
      rw [findZone] at hnone
      rw [hnone] at hinv
      exact hinv
    · intro hall
      rw [findZone]
      cases hres : zones.foldl (findZoneStep name) none with
      | none => rfl
      | some z =>
        rw [hres] at hinv
        exact absurd hinv.2.1 (by simp [hall z hinv.1])
  · intro z hz
    rw [findZone] at hz
    rw [hz] at hinv
    exact hinv

/-- C10 witness: among two nested zones matching a name, the longer one
is selected, and it is maximal. -/
theorem claim_C10_witness :
    (⟨"sub.example.com"⟩ : ZoneAuth)
        ∈ [(⟨"example.com"⟩ : ZoneAuth), ⟨"sub.example.com"⟩]
    ∧ zoneMatches "foo.sub.example.com" ⟨"sub.example.com"⟩ = true
    ∧ ∀ z' ∈ [(⟨"example.com"⟩ : ZoneAuth), ⟨"sub.example.com"⟩],
        zoneMatches "foo.sub.example.com" z' = true →
          goLen z'.Fqdn ≤ goLen (⟨"sub.example.com"⟩ : ZoneAuth).Fqdn :=
  (claim_C10 [⟨"example.com"⟩, ⟨"sub.example.com"⟩] "foo.sub.example.com").2
    ⟨"sub.example.com"⟩ (by decide)

/-! ## Ingress template source (`ingressSource.endpointsFromTemplate`). -/

/-- Load-balancer status entry of an ingress: an IP and a hostname,
either possibly empty. -/
structure LoadBalancerIngress where
  IP : String
  Hostname : String
deriving DecidableEq

/-- Mirrors `ingressSource.endpointsFromTemplate`. The outcome of
`fqdntemplate.Execute` is abstracted as the returned error and the
buffer contents; the code only builds endpoints from the load-balancer
statuses inside its `err != nil` branch, so a successful execution
yields no endpoints. -/
def endpointsFromTemplate (execErr : Option String) (buf : String)
    (lbIngress : List LoadBalancerIngress) : List LabeledEndpoint :=
  match execErr with
  | some _ =>
    let hostname := buf
    lbIngress.foldl (fun endpoints lb =>
      (endpoints ++ (if lb.IP ≠ "" then [NewEndpoint hostname lb.IP ""] else []))
        ++ (if lb.Hostname ≠ "" then [NewEndpoint hostname lb.Hostname ""] else []))
      []
  | none => []

/-- C8: `endpointsFromTemplate` returns an empty list whenever the
template executed successfully (`err == nil`), and it can produce
endpoints only when the execution returned a non-nil error — the error
check in the source is inverted. -/
theorem claim_C8 (execErr : Option String) (buf : String)
    (lbs : List LoadBalancerIngress) :
    (execErr = none → endpointsFromTemplate execErr buf lbs = [])
    ∧ (endpointsFromTemplate execErr buf lbs ≠ [] → execErr ≠ none) := by
  constructor
  · intro h
    rw [h]
    rfl
  · intro hne h
    exact hne (by rw [h]; rfl)

/-- C8 witness: with a successful template execution and a load
balancer carrying an IP, no endpoint is produced; with a failed
execution the same status yields endpoints. -/
theorem claim_C8_witness :
    endpointsFromTemplate none "host.example.org" [⟨"8.8.8.8", ""⟩] = [] :=
  (claim_C8 none "host.example.org" [⟨"8.8.8.8", ""⟩]).1 rfl

/-! ## Plan calculator. The plan package implementation is not in the
source tree — only its tests and callers are — so the calculator is
reconstructed from the specification (§4.1). -/

/-- Modelled from the spec: the endpoint data model of §3 (the plan
package's endpoint is missing from the sources) — DNS name, target
list, record type, TTL where 0 means unset, labels, and the opaque
provider-specific properties, both maps as association lists. -/
structure PlanEndpoint where
  dnsName : String
  targets : List String
  recordType : String
  ttl : Nat
  labels : List (String × String)
  providerSpecific : List (String × String)
deriving DecidableEq

/-- Modelled from the spec: case-insensitive `dns_name` matching (§4.1)
— names are compared after lowercasing. -/
def normName (s : String) : String :=
  ⟨s.data.map Char.toLower⟩

/-- Modelled from the spec: record-type defaulting (§4.1 step 1) — an
empty desired record type inherits from the current endpoint with the
same name when one exists, and otherwise defaults to A when any target
parses as an IP literal, else CNAME. -/
def effectiveType (current : List PlanEndpoint) (e : PlanEndpoint) : String :=
  if e.recordType ≠ "" then e.recordType
  else
    match current.find? (fun c => normName c.dnsName == normName e.dnsName) with
    | some c => c.recordType
    | none => if e.targets.any (fun t => (parseIP t).isSome) then "A" else "CNAME"

/-- Modelled from the spec: the key of a current endpoint — case-folded
DNS name and record type (§4.1 step 1). -/
def keyOfCurrent (e : PlanEndpoint) : String × String :=
  (normName e.dnsName, e.recordType)

/-- Modelled from the spec: the key of a desired endpoint uses the
effective (inherited or defaulted) record type (§4.1 step 1). -/
def keyOfDesired (current : List PlanEndpoint) (e : PlanEndpoint) : String × String :=
  (normName e.dnsName, effectiveType current e)

/-- Modelled from the spec: duplicate keys are resolved by keeping the
first occurrence and discarding the rest (§4.1 tie-breaks); `seen`
accumulates the keys already kept. -/
def dedupByKey (key : PlanEndpoint → String × String) :
    List (String × String) → List PlanEndpoint → List PlanEndpoint
  | _, [] => []
  | seen, e :: rest =>
    if seen.contains (key e) then dedupByKey key seen rest
    else e :: dedupByKey key (key e :: seen) rest

/-- Modelled from the spec: keying a list deduplicates it, keeping
first occurrences. -/
def dedupPlan (key : PlanEndpoint → String × String) (l : List PlanEndpoint) :
    List PlanEndpoint :=
  dedupByKey key [] l

/-- Modelled from the spec: the desired list is pruned of endpoints
with an empty target set (treated as absent, §4.1 tie-breaks) and then
deduplicated by key. -/
def desiredPrep (current desired : List PlanEndpoint) : List PlanEndpoint :=
  dedupPlan (keyOfDesired current) (desired.filter (fun d => !d.targets.isEmpty))

/-- Modelled from the spec: the current list is deduplicated by key. -/
def currentPrep (current : List PlanEndpoint) : List PlanEndpoint :=
  dedupPlan keyOfCurrent current

/-- Modelled from the spec: order-insensitive target set equality
(§4.1 step 2). -/
def sameTargetSet (a b : List String) : Bool :=
  a.all (fun t => b.contains t) && b.all (fun t => a.contains t)

/-- Modelled from the spec: an update is needed when the target sets
differ, or the TTLs differ with a non-zero desired TTL, or the
provider-specific properties differ (§4.1 step 2). -/
def shouldUpdate (c d : PlanEndpoint) : Bool :=
  !(sameTargetSet c.targets d.targets)
    || (d.ttl != c.ttl && d.ttl != 0)
    || d.providerSpecific != c.providerSpecific

/-- Modelled from the spec: the UpdateNew endpoint is the desired one
with labels inherited from current (desired labels override), the TTL
inherited when the desired TTL is 0, and the record type inherited when
the desired one is empty (§4.1 step 2). -/
def inheritEp (c d : PlanEndpoint) : PlanEndpoint :=
  { d with
    labels := c.labels.filter
        (fun kv => !(d.labels.any (fun kv' => kv'.1 == kv.1))) ++ d.labels
    ttl := if d.ttl = 0 then c.ttl else d.ttl
    recordType := if d.recordType = "" then c.recordType else d.recordType }

/-- Modelled from the spec: the keys present in both lists, paired as
(current endpoint, desired endpoint) in desired order (§4.1 step 2). -/
def matchedPairs (current desired : List PlanEndpoint) :
    List (PlanEndpoint × PlanEndpoint) :=
  (desiredPrep current desired).filterMap (fun d =>
    match (currentPrep current).find?
        (fun c => keyOfCurrent c == keyOfDesired current d) with
    | some c => some (c, d)
    | none => none)

/-- Modelled from the spec: the Changes record of the plan package —
four sequences Create, UpdateOld, UpdateNew, Delete. -/
structure PlanChanges where
  Create : List PlanEndpoint
  UpdateOld : List PlanEndpoint
  UpdateNew : List PlanEndpoint
  Delete : List PlanEndpoint
deriving DecidableEq

/-- Modelled from the spec: the raw change set before policies — keys
only in desired are created, keys only in current are deleted, and keys
in both yield an UpdateOld/UpdateNew pair when an update is needed
(§4.1 step 2). -/
def rawChanges (current desired : List PlanEndpoint) : PlanChanges :=
  let current' := currentPrep current
  let desired' := desiredPrep current desired
  let updates := (matchedPairs current desired).filter (fun p => shouldUpdate p.1 p.2)
  { Create := desired'.filter (fun d =>
      !(current'.any (fun c => keyOfCurrent c == keyOfDesired current d)))
    UpdateOld := updates.map (fun p => p.1)
    UpdateNew := updates.map (fun p => inheritEp p.1 p.2)
    Delete := current'.filter (fun c =>
      !(desired'.any (fun d => keyOfDesired current d == keyOfCurrent c))) }

/-- Modelled from the spec: the built-in policies (§4.1 step 3). -/
inductive Policy where
  | SyncPolicy : Policy
  | UpsertOnlyPolicy : Policy
  | CreateOnlyPolicy : Policy
deriving DecidableEq

/-- Modelled from the spec: `Sync` is the identity, `UpsertOnly` drops
Delete, `CreateOnly` drops Delete and both update sequences (§4.1
step 3). -/
def applyPolicy : Policy → PlanChanges → PlanChanges
  | Policy.SyncPolicy, ch => ch
  | Policy.UpsertOnlyPolicy, ch => { ch with Delete := [] }
  | Policy.CreateOnlyPolicy, ch =>
    { ch with Delete := [], UpdateOld := [], UpdateNew := [] }

/-- Modelled from the spec: the Plan input — policies, current records
and desired records (§4.1 contract). -/
structure Plan where
  Policies : List Policy
  Current : List PlanEndpoint
  Desired : List PlanEndpoint

/-- Modelled from the spec: `Plan.Calculate` computes the raw change
set and applies each policy in order (§4.1). -/
def Plan.Calculate (p : Plan) : PlanChanges :=
  p.Policies.foldl (fun ch pol => applyPolicy pol ch) (rawChanges p.Current p.Desired)

/-- Deduplication only keeps elements of the input. -/
theorem dedupByKey_subset (key : PlanEndpoint → String × String)
    (l : List PlanEndpoint) :
    ∀ (seen : List (String × String)), ∀ e ∈ dedupByKey key seen l, e ∈ l := by
  induction l with
  | nil =>
    intro seen e he
    simp [dedupByKey] at he
  | cons x rest ih =>
    intro seen e he
    rw [dedupByKey] at he
    split at he
    · exact List.mem_cons_of_mem _ (ih seen e he)
    · rcases List.mem_cons.mp he with rfl | he
      · exact List.mem_cons_self _ _
      · exact List.mem_cons_of_mem _ (ih _ e he)

/-- Deduplication produces pairwise distinct keys, none of them already
seen. -/
theorem dedupByKey_nodup (key : PlanEndpoint → String × String)
    (l : List PlanEndpoint) :
    ∀ (seen : List (String × String)),
      ((dedupByKey key seen l).Pairwise (fun a b => key a ≠ key b))
      ∧ ∀ e ∈ dedupByKey key seen l, key e ∉ seen := by
  induction l with
  | nil =>
    intro seen
    constructor
    · exact List.Pairwise.nil
    · intro e he
      simp [dedupByKey] at he
  | cons x rest ih =>
    intro seen
    rw [dedupByKey]
    split
    · exact ih seen
    case isFalse hns =>
      obtain ⟨pw, hs⟩ := ih (key x :: seen)
      constructor
      · refine List.Pairwise.cons ?_ pw
        intro b hb hkey
        exact hs b hb (by rw [← hkey]; exact List.mem_cons_self _ _)
      · intro e he
        rcases List.mem_cons.mp he with rfl | he
        · intro hmem
          exact hns (List.elem_iff.mpr hmem)
        · intro hmem
          exact hs e he (List.mem_cons_of_mem _ hmem)

/-- A list whose keys are already pairwise distinct and unseen is left
unchanged by deduplication. -/
theorem dedupByKey_eq_self (key : PlanEndpoint → String × String)
    (l : List PlanEndpoint) :
    ∀ (seen : List (String × String)),
      l.Pairwise (fun a b => key a ≠ key b) → (∀ e ∈ l, key e ∉ seen) →
      dedupByKey key seen l = l := by
  induction l with
  | nil => intro seen _ _; rfl
  | cons x rest ih =>
    intro seen hpw hseen
    rw [dedupByKey, if_neg]
    · rw [ih (key x :: seen) (List.pairwise_cons.mp hpw).2]
      intro e he
      intro hmem
      rcases List.mem_cons.mp hmem with hmem | hmem
      · exact (List.pairwise_cons.mp hpw).1 e he hmem.symm
      · exact hseen e (List.mem_cons_of_mem _ he) hmem
    · intro hc
      exact hseen x (List.mem_cons_self _ _) (List.elem_iff.mp hc)

/-- Deduplication calls the key function only on list elements, so two
key functions agreeing on the list yield the same result. -/
theorem dedupByKey_congr (k1 k2 : PlanEndpoint → String × String)
    (l : List PlanEndpoint) :
    ∀ (seen : List (String × String)), (∀ e ∈ l, k1 e = k2 e) →
      dedupByKey k1 seen l = dedupByKey k2 seen l := by
  induction l with
  | nil => intro seen _; rfl
  | cons x rest ih =>
    intro seen hagree
    have hx : k1 x = k2 x := hagree x (List.mem_cons_self _ _)
    have hrest : ∀ e ∈ rest, k1 e = k2 e :=
      fun e he => hagree e (List.mem_cons_of_mem _ he)
    rw [dedupByKey, dedupByKey, hx]
    split
    · exact ih seen hrest
    · rw [ih (k2 x :: seen) hrest]

/-- In a list with pairwise distinct keys, searching for the key of a
member finds exactly that member. -/
theorem find?_key_self (key : PlanEndpoint → String × String)
    (l : List PlanEndpoint) (c : PlanEndpoint) (k : String × String)
    (hnd : l.Pairwise (fun a b => key a ≠ key b)) (hc : c ∈ l) (hk : key c = k) :
    l.find? (fun e => key e == k) = some c := by
  induction l with
  | nil => simp at hc
  | cons x rest ih =>
    rcases List.mem_cons.mp hc with rfl | hc
    · exact List.find?_cons_of_pos _ (by simp [hk])
    · have hne : key x ≠ k := by
        rw [← hk]
        exact (List.pairwise_cons.mp hnd).1 c hc
      rw [List.find?_cons_of_neg _ (by simp [hne])]
      exact ih (List.pairwise_cons.mp hnd).2 hc

/-- Target set equality is reflexive. -/
theorem sameTargetSet_refl (l : List String) : sameTargetSet l l = true := by
  simp only [sameTargetSet, Bool.and_self, List.all_eq_true]
  intro t ht
  exact List.elem_iff.mpr ht

/-- C3: under the `UpsertOnly` policy, `Plan.Calculate` produces an
empty Delete sequence, while Create, UpdateOld and UpdateNew are
exactly those produced under the `Sync` policy. -/
theorem claim_C3 (current desired : List PlanEndpoint) :
    (Plan.Calculate ⟨[Policy.UpsertOnlyPolicy], current, desired⟩).Delete = []
    ∧ (Plan.Calculate ⟨[Policy.UpsertOnlyPolicy], current, desired⟩).Create
        = (Plan.Calculate ⟨[Policy.SyncPolicy], current, desired⟩).Create
    ∧ (Plan.Calculate ⟨[Policy.UpsertOnlyPolicy], current, desired⟩).UpdateOld
        = (Plan.Calculate ⟨[Policy.SyncPolicy], current, desired⟩).UpdateOld
    ∧ (Plan.Calculate ⟨[Policy.UpsertOnlyPolicy], current, desired⟩).UpdateNew
        = (Plan.Calculate ⟨[Policy.SyncPolicy], current, desired⟩).UpdateNew :=
  ⟨rfl, rfl, rfl, rfl⟩

/-- One key function agreeing with `keyOfCurrent` on well-typed
endpoints: with a non-empty record type nothing is inherited. -/
theorem keyOfDesired_eq_keyOfCurrent (current : List PlanEndpoint)
    (e : PlanEndpoint) (h : e.recordType ≠ "") :
    keyOfDesired current e = keyOfCurrent e := by
  unfold keyOfDesired keyOfCurrent effectiveType
  rw [if_pos h]

/-- A function mapping every member to `some` of another function is a
map on that list. -/
theorem filterMap_eq_map_of
    (f : PlanEndpoint → Option (PlanEndpoint × PlanEndpoint))
    (g : PlanEndpoint → PlanEndpoint × PlanEndpoint) (l : List PlanEndpoint)
    (h : ∀ e ∈ l, f e = some (g e)) : l.filterMap f = l.map g := by
  induction l with
  | nil => rfl
  | cons x rest ih =>
    rw [List.filterMap_cons, h x (List.mem_cons_self _ _), List.map_cons,
      ih (fun e he => h e (List.mem_cons_of_mem _ he))]

/-- An endpoint never needs an update against itself. -/
theorem shouldUpdate_self (d : PlanEndpoint) : shouldUpdate d d = false := by
  simp [shouldUpdate, sameTargetSet_refl]

/-- C2 (amended): `Plan.Calculate(current = X, desired = X)` under the
`Sync` policy yields empty Changes for every list X whose endpoints all
have a non-empty target list and a non-empty record type. (An endpoint
with an empty target set is dropped from desired and would be deleted;
an endpoint with an empty record type can inherit a different type and
break the key matching.) -/
theorem claim_C2_amended (X : List PlanEndpoint)
    (h : ∀ e ∈ X, e.targets ≠ [] ∧ e.recordType ≠ "") :
    Plan.Calculate ⟨[Policy.SyncPolicy], X, X⟩ = ⟨[], [], [], []⟩ := by
  have hfilter : X.filter (fun d => !d.targets.isEmpty) = X := by
    rw [List.filter_eq_self]
    intro e he
    simp [List.isEmpty_iff, (h e he).1]
  have hagree : ∀ e ∈ X, keyOfDesired X e = keyOfCurrent e :=
    fun e he => keyOfDesired_eq_keyOfCurrent X e (h e he).2
  have hdd : desiredPrep X X = currentPrep X := by
    unfold desiredPrep currentPrep dedupPlan
    rw [hfilter]
    exact dedupByKey_congr _ _ X [] hagree
  have hndD : (currentPrep X).Pairwise (fun a b => keyOfCurrent a ≠ keyOfCurrent b) :=
    (dedupByKey_nodup keyOfCurrent X []).1
  have hsubD : ∀ e ∈ currentPrep X, e ∈ X := dedupByKey_subset keyOfCurrent X []
  have hagreeD : ∀ e ∈ currentPrep X, keyOfDesired X e = keyOfCurrent e :=
    fun e he => hagree e (hsubD e he)
  have hmp : matchedPairs X X = (currentPrep X).map (fun e => (e, e)) := by
    rw [matchedPairs, hdd]
    apply filterMap_eq_map_of
    intro e he
    rw [find?_key_self keyOfCurrent (currentPrep X) e (keyOfDesired X e) hndD he
      (hagreeD e he).symm]
  have hupd : ((currentPrep X).map (fun e => (e, e))).filter
      (fun p => shouldUpdate p.1 p.2) = [] := by
    rw [List.filter_eq_nil_iff]
    intro p hp
    obtain ⟨e, he, rfl⟩ := List.mem_map.mp hp
    simp [shouldUpdate_self]
  have hcr : (desiredPrep X X).filter (fun d =>
      !((currentPrep X).any (fun c => keyOfCurrent c == keyOfDesired X d))) = [] := by
    rw [hdd, List.filter_eq_nil_iff]
    intro e he
    simp only [Bool.not_eq_true', Bool.not_eq_false, List.any_eq_true]
    exact ⟨e, he, by simp [hagreeD e he]⟩
  have hdel : (currentPrep X).filter (fun c =>
      !((desiredPrep X X).any (fun d => keyOfDesired X d == keyOfCurrent c))) = [] := by
    rw [hdd, List.filter_eq_nil_iff]
    intro e he
    simp only [Bool.not_eq_true', Bool.not_eq_false, List.any_eq_true]
    exact ⟨e, he, by simp [hagreeD e he]⟩
  show rawChanges X X = ⟨[], [], [], []⟩
  rw [rawChanges]
  simp only [hmp, hupd, hcr, hdel, List.map_nil]

/-- C2 witness: a well-formed single record is a fixed point of the
plan. -/
theorem claim_C2_amended_witness :
    Plan.Calculate ⟨[Policy.SyncPolicy],
        [⟨"foo", ["1.2.3.4"], "A", 60, [], []⟩],
        [⟨"foo", ["1.2.3.4"], "A", 60, [], []⟩]⟩ = ⟨[], [], [], []⟩ :=
  claim_C2_amended [⟨"foo", ["1.2.3.4"], "A", 60, [], []⟩] (by decide)

/-- C2 counterexample: an endpoint with an empty target set is dropped
from the desired list (the specification treats it as a deletion
request), so current = desired = X produces a non-empty Delete. -/
theorem claim_C2_counterexample :
    Plan.Calculate ⟨[Policy.SyncPolicy],
        [⟨"del", [], "A", 0, [], []⟩], [⟨"del", [], "A", 0, [], []⟩]⟩
      = ⟨[], [], [], [⟨"del", [], "A", 0, [], []⟩]⟩ := by
  decide

/-- Decomposition of a matched pair: the desired endpoint is in the
prepared desired list and the search for its key in the prepared
current list found exactly the current endpoint. -/
theorem matchedPairs_mem (current desired : List PlanEndpoint) (c d : PlanEndpoint)
    (h : (c, d) ∈ matchedPairs current desired) :
    d ∈ desiredPrep current desired
    ∧ (currentPrep current).find?
        (fun cc => keyOfCurrent cc == keyOfDesired current d) = some c := by
  rw [matchedPairs] at h
  obtain ⟨x, hx, hfx⟩ := List.mem_filterMap.mp h
  cases hfind : (currentPrep current).find?
      (fun cc => keyOfCurrent cc == keyOfDesired current x) with
  | none => rw [hfind] at hfx; cases hfx
  | some cc =>
    rw [hfind] at hfx
    simp only [Option.some.injEq, Prod.mk.injEq] at hfx
    obtain ⟨rfl, rfl⟩ := hfx
    exact ⟨hx, hfind⟩

/-- Two matched pairs sharing the current endpoint coincide: the
prepared desired list has pairwise distinct keys and both desired
endpoints carry the key of the shared current endpoint. -/
theorem matchedPairs_first_unique (current desired : List PlanEndpoint)
    (c d1 d2 : PlanEndpoint)
    (h1 : (c, d1) ∈ matchedPairs current desired)
    (h2 : (c, d2) ∈ matchedPairs current desired) : d1 = d2 := by
  obtain ⟨hd1, hf1⟩ := matchedPairs_mem current desired c d1 h1
  obtain ⟨hd2, hf2⟩ := matchedPairs_mem current desired c d2 h2
  have hk1 : keyOfCurrent c = keyOfDesired current d1 := by
    have := List.find?_some hf1
    simpa using this
  have hk2 : keyOfCurrent c = keyOfDesired current d2 := by
    have := List.find?_some hf2
    simpa using this
  by_contra hne
  have hpw := (dedupByKey_nodup (keyOfDesired current)
    (desired.filter (fun d => !d.targets.isEmpty)) []).1
  have hsym : Symmetric
      (fun a b : PlanEndpoint => keyOfDesired current a ≠ keyOfDesired current b) :=
    fun a b hab => Ne.symm hab
  have hdiff := hpw.forall hsym hd1 hd2 hne
  exact hdiff (hk1 ▸ hk2)

/-- A matched, updating pair lands in the zipped update sequences. -/
theorem mem_zip_updates (current desired : List PlanEndpoint) (c d : PlanEndpoint)
    (hpair : (c, d) ∈ matchedPairs current desired)
    (hsu : shouldUpdate c d = true) :
    (c, inheritEp c d) ∈
      ((Plan.Calculate ⟨[Policy.SyncPolicy], current, desired⟩).UpdateOld.zip
        (Plan.Calculate ⟨[Policy.SyncPolicy], current, desired⟩).UpdateNew) := by
  show (c, inheritEp c d) ∈
    ((((matchedPairs current desired).filter (fun p => shouldUpdate p.1 p.2)).map
        (fun p => p.1)).zip
      (((matchedPairs current desired).filter (fun p => shouldUpdate p.1 p.2)).map
        (fun p => inheritEp p.1 p.2)))
  rw [List.zip_map']
  exact List.mem_map.mpr ⟨(c, d), List.mem_filter.mpr ⟨hpair, hsu⟩, rfl⟩

/-- C4: in `Plan.Calculate` under `Sync`, duplicate desired keys never
produce an extra Create — the Create sequence has pairwise distinct
keys; moreover, when the (deduplicated) current list holds the key of a
(first-occurrence) desired endpoint, nothing with that key is created,
and if the targets differ the pair appears in UpdateOld/UpdateNew. -/
theorem claim_C4 (current desired : List PlanEndpoint) (c d : PlanEndpoint)
    (hc : c ∈ currentPrep current) (hd : d ∈ desiredPrep current desired)
    (hkey : keyOfCurrent c = keyOfDesired current d) :
    ((Plan.Calculate ⟨[Policy.SyncPolicy], current, desired⟩).Create.Pairwise
        (fun d1 d2 => keyOfDesired current d1 ≠ keyOfDesired current d2))
    ∧ (∀ e ∈ (Plan.Calculate ⟨[Policy.SyncPolicy], current, desired⟩).Create,
        keyOfDesired current e ≠ keyOfCurrent c)
    ∧ (sameTargetSet c.targets d.targets = false →
        (c, inheritEp c d) ∈
          ((Plan.Calculate ⟨[Policy.SyncPolicy], current, desired⟩).UpdateOld.zip
            (Plan.Calculate ⟨[Policy.SyncPolicy], current, desired⟩).UpdateNew)) := by
  refine ⟨?_, ?_, ?_⟩
  · have hpw := (dedupByKey_nodup (keyOfDesired current)
      (desired.filter (fun dd => !dd.targets.isEmpty)) []).1
    exact List.Pairwise.sublist (List.filter_sublist _) hpw
  · intro e he heq
    have hfe := (List.mem_filter.mp he).2
    simp only [Bool.not_eq_true', List.any_eq_false] at hfe
    exact hfe c hc (by simp [heq.symm])
  · intro hst
    have hfind : (currentPrep current).find?
        (fun cc => keyOfCurrent cc == keyOfDesired current d) = some c :=
      find?_key_self keyOfCurrent (currentPrep current) c (keyOfDesired current d)
        (dedupByKey_nodup keyOfCurrent current []).1 hc hkey
    have hpair : (c, d) ∈ matchedPairs current desired := by
      rw [matchedPairs]
      exact List.mem_filterMap.mpr ⟨d, hd, by rw [hfind]⟩
    exact mem_zip_updates current desired c d hpair (by simp [shouldUpdate, hst])

/-- C4 witness: the duplicated desired key "foo" (first occurrence with
new targets) updates the existing record instead of creating, and "bar"
is the only creation. -/
theorem claim_C4_witness :
    ((Plan.Calculate ⟨[Policy.SyncPolicy],
        [⟨"foo", ["v1"], "CNAME", 0, [], []⟩],
        [⟨"foo", ["v2"], "CNAME", 0, [], []⟩, ⟨"foo", ["v1"], "CNAME", 0, [], []⟩,
          ⟨"bar", ["v1"], "CNAME", 0, [], []⟩]⟩).Create.Pairwise
        (fun d1 d2 =>
          keyOfDesired [⟨"foo", ["v1"], "CNAME", 0, [], []⟩] d1
            ≠ keyOfDesired [⟨"foo", ["v1"], "CNAME", 0, [], []⟩] d2))
    ∧ (∀ e ∈ (Plan.Calculate ⟨[Policy.SyncPolicy],
        [⟨"foo", ["v1"], "CNAME", 0, [], []⟩],
        [⟨"foo", ["v2"], "CNAME", 0, [], []⟩, ⟨"foo", ["v1"], "CNAME", 0, [], []⟩,
          ⟨"bar", ["v1"], "CNAME", 0, [], []⟩]⟩).Create,
        keyOfDesired [⟨"foo", ["v1"], "CNAME", 0, [], []⟩] e
          ≠ keyOfCurrent ⟨"foo", ["v1"], "CNAME", 0, [], []⟩)
    ∧ (sameTargetSet ["v1"] ["v2"] = false →
        (⟨"foo", ["v1"], "CNAME", 0, [], []⟩,
            inheritEp ⟨"foo", ["v1"], "CNAME", 0, [], []⟩
              ⟨"foo", ["v2"], "CNAME", 0, [], []⟩) ∈
          ((Plan.Calculate ⟨[Policy.SyncPolicy],
              [⟨"foo", ["v1"], "CNAME", 0, [], []⟩],
              [⟨"foo", ["v2"], "CNAME", 0, [], []⟩,
                ⟨"foo", ["v1"], "CNAME", 0, [], []⟩,
                ⟨"bar", ["v1"], "CNAME", 0, [], []⟩]⟩).UpdateOld.zip
            (Plan.Calculate ⟨[Policy.SyncPolicy],
              [⟨"foo", ["v1"], "CNAME", 0, [], []⟩],
              [⟨"foo", ["v2"], "CNAME", 0, [], []⟩,
                ⟨"foo", ["v1"], "CNAME", 0, [], []⟩,
                ⟨"bar", ["v1"], "CNAME", 0, [], []⟩]⟩).UpdateNew)) :=
  claim_C4 [⟨"foo", ["v1"], "CNAME", 0, [], []⟩]
    [⟨"foo", ["v2"], "CNAME", 0, [], []⟩, ⟨"foo", ["v1"], "CNAME", 0, [], []⟩,
      ⟨"bar", ["v1"], "CNAME", 0, [], []⟩]
    ⟨"foo", ["v1"], "CNAME", 0, [], []⟩ ⟨"foo", ["v2"], "CNAME", 0, [], []⟩
    (by decide) (by decide) (by decide)

/-- C5: for a key present in both (deduplicated) lists with set-equal
targets and equal provider-specific properties, a desired TTL of 0
causes no update for that key; a non-zero desired TTL different from
the current one always places the pair in UpdateOld/UpdateNew. -/
theorem claim_C5 (current desired : List PlanEndpoint) (c d : PlanEndpoint)
    (hmem : (c, d) ∈ matchedPairs current desired) :
    (sameTargetSet c.targets d.targets = true →
      d.providerSpecific = c.providerSpecific →
      d.ttl = 0 →
      c ∉ (Plan.Calculate ⟨[Policy.SyncPolicy], current, desired⟩).UpdateOld)
    ∧ (d.ttl ≠ 0 → d.ttl ≠ c.ttl →
      (c, inheritEp c d) ∈
        ((Plan.Calculate ⟨[Policy.SyncPolicy], current, desired⟩).UpdateOld.zip
          (Plan.Calculate ⟨[Policy.SyncPolicy], current, desired⟩).UpdateNew)) := by
  constructor
  · intro hst hps httl hcmem
    have hcmem' : c ∈ ((matchedPairs current desired).filter
        (fun p => shouldUpdate p.1 p.2)).map (fun p => p.1) := hcmem
    obtain ⟨p, hp, hp1⟩ := List.mem_map.mp hcmem'
    obtain ⟨hpair, hupd⟩ := List.mem_filter.mp hp
    obtain ⟨c', d'⟩ := p
    simp only at hp1
    subst hp1
    have hdd : d' = d :=
      matchedPairs_first_unique current desired c' d' d hpair hmem
    subst hdd
    rw [shouldUpdate, hst] at hupd
    simp [httl, hps] at hupd
  · intro httl0 htne
    exact mem_zip_updates current desired c d hmem
      (by simp [shouldUpdate, bne_iff_ne, httl0, htne])

/-- C5 witness: a TTL change from 300 to 50 updates the record, while a
desired TTL of 0 leaves it alone. -/
theorem claim_C5_witness :
    (sameTargetSet (["v"] : List String) ["v"] = true →
      ([] : List (String × String)) = [] →
      (0 : Nat) = 0 →
      (⟨"foo", ["v"], "A", 300, [], []⟩ : PlanEndpoint)
        ∉ (Plan.Calculate ⟨[Policy.SyncPolicy],
            [⟨"foo", ["v"], "A", 300, [], []⟩],
            [⟨"foo", ["v"], "A", 0, [], []⟩]⟩).UpdateOld)
    ∧ ((0 : Nat) ≠ 0 → (0 : Nat) ≠ 300 →
      ((⟨"foo", ["v"], "A", 300, [], []⟩ : PlanEndpoint),
          inheritEp ⟨"foo", ["v"], "A", 300, [], []⟩ ⟨"foo", ["v"], "A", 0, [], []⟩) ∈
        ((Plan.Calculate ⟨[Policy.SyncPolicy],
            [⟨"foo", ["v"], "A", 300, [], []⟩],
            [⟨"foo", ["v"], "A", 0, [], []⟩]⟩).UpdateOld.zip
          (Plan.Calculate ⟨[Policy.SyncPolicy],
            [⟨"foo", ["v"], "A", 300, [], []⟩],
            [⟨"foo", ["v"], "A", 0, [], []⟩]⟩).UpdateNew)) :=
  claim_C5 [⟨"foo", ["v"], "A", 300, [], []⟩] [⟨"foo", ["v"], "A", 0, [], []⟩]
    ⟨"foo", ["v"], "A", 300, [], []⟩ ⟨"foo", ["v"], "A", 0, [], []⟩ (by decide)
